import Mathlib

/-!
Verification of the streaming-reply assembly and conversation-state logic of
the Brave Playground chat frontend (`src/FrontendPlayground/src/App.jsx`).

The component keeps React state (`messages`, `chatId`, `historico`, `loading`,
`imagenesPrevias` ref, `input`, `activeChatId`) and mutates it from the
`handleSend` handler and the `onToken` stream callback.  The embedding below
models JS strings as `List Char`, the `historico` object as an association
list with distinct keys, and each handler as a pure state-transition function
that additionally returns the list of outbound effects (HTTP requests,
loading-flag signal) it performs.

A central point of the embedding is JavaScript closure semantics: `handleSend`
captures the render-time values of `chatId` and `messages` when it starts, and
the `onToken` callback created inside it keeps those captured values for the
whole stream, even if `setChatId` later changes the state (React state updates
never mutate the bindings an already-running closure sees).  The captured
values are therefore stored in the `StreamSession` structure
(`closureChatId`, `staleMessages`), while the evolving component state lives
in `AppState`.
-/

namespace BravePG

/-- JS strings are modelled as lists of characters. -/
abbrev Str := List Char

def roleUser : Str := "user".data

def roleAssistant : Str := "assistant".data

/-- The fixed error text from the catch-branch of `handleSend`:
`'Lo siento, se produjo un error.'`. -/
def errText : Str := "Lo siento, se produjo un error.".data

def planEndpoint : Str := "plan".data

def searchEndpoint : Str := "search".data

/-- A chat message as built by `App.jsx` (`{role, content, images, timestamp}`).
Timestamps (`new Date().toISOString()`) are modelled as opaque naturals
supplied by the environment. -/
structure Message where
  role : Str
  content : Str
  images : List Str
  timestamp : Nat
  deriving DecidableEq, Repr, Inhabited

/-- One entry of the `historico` conversation map.  `name` and `order` are
optional because the source sometimes creates entries by spreading a possibly
absent object (`{...prev[chatId], messages}`), which leaves those fields
undefined. -/
structure Conversation where
  name : Option Str
  order : Option Nat
  messages : List Message
  deriving DecidableEq, Repr, Inhabited

/-- The component state relevant to the claims.  `historico` models the JS
object `historico` as an association list (JS object keys are unique;
updating an existing key keeps its position, adding a new key appends). -/
structure AppState where
  chatId : Option Str
  messages : List Message
  historico : List (Str × Conversation)
  loading : Bool
  imagenesPrevias : List Str
  input : Str
  activeChatId : Option Str
  deriving DecidableEq, Repr, Inhabited

/-- The per-send closure state of `handleSend`.  `currentChatId` is the local
`const currentChatId = chatId`; `closureChatId` is the render-captured
`chatId` binding the `onToken` callback reads (equal to `currentChatId` at
creation and constant for the lifetime of the stream); `staleMessages` is the
render-captured `messages` binding; `firstTokenReceived` is the mutable local
`let firstTokenReceived = false`. -/
structure StreamSession where
  currentChatId : Option Str
  closureChatId : Option Str
  assistantIndex : Nat
  staleMessages : List Message
  firstTokenReceived : Bool
  deriving DecidableEq, Repr, Inhabited

/-- Observable effects performed by the handlers: the HTTP requests issued and
the `setLoading(false)` "loading finished" signal. -/
inductive Action where
  | addMessage (id : Str) (msg : Message)
  | streamRequest (endpoint : Str) (query : Str) (history : List (Str × Str))
  | imagesListFetch
  | loadingFinished
  | ordersUpdate (ids : List Str)
  deriving DecidableEq, Repr

/-- JS `String.prototype.trim`: strip leading and trailing whitespace. -/
def jsTrim (s : Str) : Str :=
  ((s.dropWhile Char.isWhitespace).reverse.dropWhile Char.isWhitespace).reverse

/-- JS `token.replace(prevContent, '')` for plain-string arguments: remove the
first occurrence of `pat` from `s`; if `pat` does not occur, return `s`
unchanged (an empty `pat` matches at position 0 and removes nothing). -/
def removeFirst (s pat : Str) : Str :=
  if pat.isPrefixOf s then s.drop pat.length
  else
    match s with
    | [] => []
    | c :: rest => c :: removeFirst rest pat

/-- The content law of the chunk handler (line `content: prevContent +
token.replace(prevContent, '')` of `onToken`). -/
def nextContent (prev token : Str) : Str :=
  prev ++ removeFirst token prev

/-- `updated[assistantIndex]?.content || ''`: read the content of the message
at index `i`, yielding `''` when the index is out of range (JS optional
chaining) or when the content is the empty string (JS `|| ''`). -/
def contentAt (msgs : List Message) (i : Nat) : Str :=
  (msgs[i]?.map Message.content).getD []

/-- The `setMessages` functional update of the chunk handler:
`updated[assistantIndex] = {...updated[assistantIndex], role: 'assistant',
content: prevContent + token.replace(prevContent, '')}`.  All states reached
in the theorems below write within range, where the JS index assignment is
`List.set` (JS extends the array with holes for an out-of-range index; that
situation is never reached here). -/
def contentUpdateAt (msgs : List Message) (i : Nat) (token : Str) : List Message :=
  let prev := contentAt msgs i
  let newMsg : Message :=
    match msgs[i]? with
    | some m => { m with role := roleAssistant, content := nextContent prev token }
    | none =>
        { role := roleAssistant, content := nextContent prev token
          images := [], timestamp := 0 }
  msgs.set i newMsg

/-- The terminal-event image attachment:
`if (updated[assistantIndex]) updated[assistantIndex] =
{...updated[assistantIndex], images: nuevas}` (no-op when the index is
absent, mirroring the JS truthiness guard). -/
def setImagesAt (msgs : List Message) (i : Nat) (imgs : List Str) : List Message :=
  match msgs[i]? with
  | some m => msgs.set i { m with images := imgs }
  | none => msgs

/-- Lookup in the `historico` object. -/
def histGet (h : List (Str × Conversation)) (cid : Str) : Option Conversation :=
  (h.find? (fun e => e.1 = cid)).map Prod.snd

/-- Apply `f` to the message list of conversation `cid` when the entry exists
(`if (updated[cid] && updated[cid].messages) ...`); no-op otherwise. -/
def histMapMessages (h : List (Str × Conversation)) (cid : Str)
    (f : List Message → List Message) : List (Str × Conversation) :=
  h.map (fun e => if e.1 = cid then (e.1, { e.2 with messages := f e.2.messages }) else e)

/-- `setHistorico(prev => ({...prev, [chatId]: {...prev[chatId], messages}}))`
from `switchToChat`: overwrite the messages of an existing entry, or create a
fresh entry (spreading the absent object leaves `name`/`order` undefined). -/
def histSaveMessages (h : List (Str × Conversation)) (cid : Str)
    (msgs : List Message) : List (Str × Conversation) :=
  if (h.map Prod.fst).contains cid then
    h.map (fun e => if e.1 = cid then (e.1, { e.2 with messages := msgs }) else e)
  else h ++ [(cid, { name := none, order := none, messages := msgs })]

/-- Effect 5 of the component: whenever `chatId` (or `historico`) changes, the
displayed `messages` are reloaded from `historico[chatId]` (empty when the id
has no entry). -/
def loadViewedChat (st : AppState) : AppState :=
  match st.chatId with
  | some cid =>
      match histGet st.historico cid with
      | some conv => { st with messages := conv.messages }
      | none => { st with messages := [] }
  | none => st

/-- `switchToChat(newChatId)`: save the currently displayed messages into the
old conversation's `historico` entry (only when a chat is selected and the
list is non-empty), select the new chat, and let effect 5 reload the
displayed messages.  `chatId` ids are non-empty uuid strings, so JS
truthiness of `chatId` is `Option.isSome`. -/
def switchToChat (st : AppState) (newChatId : Str) : AppState :=
  let st1 :=
    match st.chatId with
    | some cid =>
        if st.messages.length > 0 then
          { st with historico := histSaveMessages st.historico cid st.messages }
        else st
    | none => st
  loadViewedChat { st1 with chatId := some newChatId }

/-- The synchronous prefix of `handleSend` (its `begin` operation): guard on
blank input, append the user message (persisting it when a chat is selected),
append the empty assistant placeholder, record `assistantIndex =
messages.length + 1` and the captured closure values, clear the input, set
the loading flag and the active chat, and issue the streaming request with
the prior history reduced to role/content pairs. -/
def beginSend (st : AppState) (ts : Nat) (planning : Bool) :
    AppState × Option StreamSession × List Action :=
  if jsTrim st.input = [] then (st, none, [])
  else
    let currentChatId := st.chatId
    let userMsg : Message :=
      { role := roleUser, content := st.input, images := [], timestamp := ts }
    let addUser : List Action :=
      match st.chatId with
      | some cid => [Action.addMessage cid userMsg]
      | none => []
    let placeholder : Message :=
      { role := roleAssistant, content := [], images := [], timestamp := ts }
    let sess : StreamSession :=
      { currentChatId := currentChatId
        closureChatId := st.chatId
        assistantIndex := st.messages.length + 1
        staleMessages := st.messages
        firstTokenReceived := false }
    ({ st with
        messages := st.messages ++ [userMsg, placeholder]
        input := []
        loading := true
        activeChatId := currentChatId },
      some sess,
      addUser ++
        [Action.streamRequest (if planning then planEndpoint else searchEndpoint)
          st.input (st.messages.map (fun m => (m.role, m.content)))])

/-- The routing pattern shared by the chunk branch, the terminal image
branch and the error branch of `handleSend`: `if (chatId === currentChatId)`
apply the update to the displayed `messages`, otherwise to the historico
entry of the session's conversation.  The compared `chatId` is the
render-captured binding (`closureChatId`), which is why the guard is decided
once and for all when the session starts. -/
def applyToSessionMessages (st : AppState) (sess : StreamSession)
    (f : List Message → List Message) : AppState :=
  if sess.closureChatId = sess.currentChatId then
    { st with messages := f st.messages }
  else
    match sess.currentChatId with
    | some cid => { st with historico := histMapMessages st.historico cid f }
    | none => st

/-- `if (!firstTokenReceived && token && !done) { setLoading(false);
firstTokenReceived = true; }`: clear the loading flag on the first non-empty
non-terminal token. -/
def fireStep (st : AppState) (sess : StreamSession) (token : Str) (isDone : Bool) :
    AppState × StreamSession × List Action :=
  if sess.firstTokenReceived = false ∧ token ≠ [] ∧ isDone = false then
    ({ st with loading := false }, { sess with firstTokenReceived := true },
      [Action.loadingFinished])
  else (st, sess, [])

/-- The terminal branch of `onToken`: fetch the image listing (`fetched` is
the response), diff it against `imagenesPreviasRef.current`, store the new
listing in the ref, attach the new images to the placeholder, persist the
finished assistant message (its content read from the render-captured
`staleMessages` binding) under the session's conversation id, and clear the
active chat. -/
def doneStep (st : AppState) (sess : StreamSession) (token : Str)
    (fetched : List Str) (ts : Nat) : AppState × List Action :=
  let nuevas := fetched.filter (fun img => ¬ st.imagenesPrevias.contains img)
  let st3 := { st with imagenesPrevias := fetched }
  let st4 := applyToSessionMessages st3 sess
    (fun msgs => setImagesAt msgs sess.assistantIndex nuevas)
  let persistActs : List Action :=
    match sess.currentChatId with
    | some cid =>
        [Action.addMessage cid
          { role := roleAssistant
            content := contentAt sess.staleMessages sess.assistantIndex ++ token
            images := nuevas, timestamp := ts }]
    | none => []
  ({ st4 with activeChatId := none }, Action.imagesListFetch :: persistActs)

/-- The `onToken` callback for one call `onToken(token, done)`: write the
cumulative token through the routing guard, fire the loading signal on the
first non-empty non-terminal token, and on the terminal call run the image
diff and persistence. -/
def onTokenStep (st : AppState) (sess : StreamSession) (token : Str)
    (isDone : Bool) (fetched : List Str) (ts : Nat) :
    AppState × StreamSession × List Action :=
  let st1 := applyToSessionMessages st sess
    (fun msgs => contentUpdateAt msgs sess.assistantIndex token)
  let r2 := fireStep st1 sess token isDone
  if isDone then
    let r3 := doneStep r2.1 sess token fetched ts
    (r3.1, r2.2.1, r2.2.2 ++ r3.2)
  else r2

/-- The catch-branch of `handleSend`: build the fixed error message, append it
to the routed message list, clear the loading flag and the active chat. -/
def errorStep (st : AppState) (sess : StreamSession) (ts : Nat) : AppState :=
  let errorMsg : Message :=
    { role := roleAssistant, content := errText, images := [], timestamp := ts }
  let st1 := applyToSessionMessages st sess (fun msgs => msgs ++ [errorMsg])
  { st1 with loading := false, activeChatId := none }

/-- Process a list of `onToken` calls in order, threading the state and the
session and collecting the emitted actions. -/
def runCalls (fetched : List Str) (ts : Nat) :
    AppState → StreamSession → List (Str × Bool) → AppState × StreamSession × List Action
  | st, sess, [] => (st, sess, [])
  | st, sess, c :: rest =>
      let r1 := onTokenStep st sess c.1 c.2 fetched ts
      let r2 := runCalls fetched ts r1.1 r1.2.1 rest
      (r2.1, r2.2.1, r1.2.2 ++ r2.2.2)

/-- The cumulative buffers produced by the read loop of `callBackendStream`:
starting from `buffer`, each read chunk is appended and the running buffer is
passed to `onToken`. -/
def streamBuffers (buffer : Str) : List Str → List Str
  | [] => []
  | r :: rs => (buffer ++ r) :: streamBuffers (buffer ++ r) rs

/-- The full `onToken` call sequence of `callBackendStream` for a stream whose
reads decode to `reads`: one non-terminal call per read carrying the
cumulative buffer, then the final call `onToken(buffer, true)`. -/
def streamCalls (reads : List Str) : List (Str × Bool) :=
  (streamBuffers [] reads).map (fun b => (b, false)) ++ [(reads.flatten, true)]

/-- A backend response as seen by `callBackendStream`: either the response has
no body (`if (!response.body) return;`) or it has a body decoding to a list
of reads. -/
inductive StreamResponse where
  | noBody
  | body (reads : List Str)
  deriving DecidableEq, Repr

/-- The `onToken` calls made by `callBackendStream` for a response: none at
all when the body is absent (the early `return` fires before the read loop),
otherwise the call sequence of the read loop. -/
def callBackendStreamCalls (resp : StreamResponse) : List (Str × Bool) :=
  match resp with
  | .noBody => []
  | .body reads => streamCalls reads

/-! ### Drag-and-drop reordering (`onDragEnd`) -/

/-- A `@hello-pangea/dnd` drop result: a source index and an optional
destination index (null when dropped outside a droppable). -/
structure DragResult where
  source : Nat
  destination : Option Nat
  deriving DecidableEq, Repr

/-- `Object.entries(historico).map(...).sort((a, b) => (a.order ?? 0) -
(b.order ?? 0))`: the sidebar's chat array, stably sorted by order (JS
`Array.prototype.sort` is required to be stable; the algorithm itself is
implementation-defined, modelled here by a stable insertion sort). -/
def chatArrayOf (h : List (Str × Conversation)) : List (Str × Conversation) :=
  h.insertionSort (fun a b => a.2.order.getD 0 ≤ b.2.order.getD 0)

/-- `chatArray.splice(result.source.index, 1)` leftover: the array with the
element at `i` removed. -/
def spliceRemove (l : List (Str × Conversation)) (i : Nat) : List (Str × Conversation) :=
  l.take i ++ l.drop (i + 1)

/-- `chatArray.splice(result.destination.index, 0, movedItem)`: insert an
element at index `i` (appending when `i` is at or past the end, as JS
`splice` does). -/
def spliceInsert (l : List (Str × Conversation)) (i : Nat) (a : Str × Conversation) :
    List (Str × Conversation) :=
  l.take i ++ a :: l.drop i

/-- One step of the reassignment loop:
`nuevoHistorico[chat.id] = {...nuevoHistorico[chat.id], order: index}`,
guarded by `if (nuevoHistorico[chat.id])` (no-op for an absent key). -/
def histSetOrder (h : List (Str × Conversation)) (cid : Str) (i : Nat) :
    List (Str × Conversation) :=
  h.map (fun e => if e.1 = cid then (e.1, { e.2 with order := some i }) else e)

/-- `chatArray.forEach((chat, index) => ...)`: walk the reordered array with a
running index, reassigning each chat's order. -/
def assignOrders : List (Str × Conversation) → Nat → List (Str × Conversation) →
    List (Str × Conversation)
  | [], _, h => h
  | c :: rest, i, h => assignOrders rest (i + 1) (histSetOrder h c.1 i)

/-- The `onDragEnd` handler: bail out on a null destination, build the sorted
chat array, move the dragged entry from the source index to the destination
index, reassign dense orders, and send the new id order to the backend.  (A
source index past the end would make the JS handler throw on
`chat.id` of `undefined`; the drag library only delivers in-range indices,
and that case is returned unchanged here.) -/
def onDragEnd (h : List (Str × Conversation)) (res : DragResult) :
    List (Str × Conversation) × List Action :=
  match res.destination with
  | none => (h, [])
  | some dest =>
      let arr := chatArrayOf h
      match arr[res.source]? with
      | none => (h, [])
      | some moved =>
          let arr2 := spliceInsert (spliceRemove arr res.source) dest moved
          (assignOrders arr2 0 h, [Action.ordersUpdate (arr2.map Prod.fst)])

/-! ### Derived observation functions -/

/-- Decidable check that each element of the list is a prefix of the next one
(the shape of the cumulative chunk sequences delivered by the backend). -/
def isPrefixChain : List Str → Bool
  | [] => true
  | [_] => true
  | a :: b :: rest => a.isPrefixOf b && isPrefixChain (b :: rest)

/-- Map a chunk list to the corresponding non-terminal `onToken` calls. -/
def chunkCalls (cs : List Str) : List (Str × Bool) :=
  cs.map (fun c => (c, false))

/-- Number of `loadingFinished` signals in an action trace. -/
def countLoading (acts : List Action) : Nat :=
  acts.count Action.loadingFinished

/-- The `add_message` persistence requests in an action trace. -/
def persistedMessages (acts : List Action) : List (Str × Message) :=
  acts.filterMap (fun a =>
    match a with
    | Action.addMessage id m => some (id, m)
    | _ => none)

/-- Index of the first occurrence of a key in a key list (length of the list
when absent). -/
def keyIndex (k : Str) : List Str → Nat
  | [] => 0
  | a :: rest => if a = k then 0 else keyIndex k rest + 1

/-- Pointwise description of the reassignment loop: an entry whose id occurs
in the reordered chat array gets order `i +` its index there; other entries
are untouched. -/
def applyOrd (arr : List (Str × Conversation)) (i : Nat) (e : Str × Conversation) :
    Str × Conversation :=
  if e.1 ∈ arr.map Prod.fst then
    (e.1, { e.2 with order := some (i + keyIndex e.1 (arr.map Prod.fst)) })
  else e

/-! ### Concrete fixtures used by witnesses and counterexamples -/

def exA : Str := "A".data

def exB : Str := "B".data

/-- A state viewing conversation `A` (empty) while conversation `B` holds
three stored messages, with the draft input `"hi"`. -/
def ex0 : AppState :=
  { chatId := some exA
    messages := []
    historico :=
      [(exA, { name := some exA, order := some 0, messages := [] }),
       (exB, { name := some exB, order := some 1, messages :=
          [{ role := roleUser, content := "b0".data, images := [], timestamp := 0 },
           { role := roleUser, content := "b1".data, images := [], timestamp := 0 },
           { role := roleUser, content := "b2".data, images := [], timestamp := 0 }] })]
    loading := false
    imagenesPrevias := []
    input := "hi".data
    activeChatId := none }

/-- The state right after `handleSend` begins on `ex0`. -/
def ex1 : AppState := (beginSend ex0 5 false).1

/-- The stream session opened by that send. -/
def exSess : StreamSession := ((beginSend ex0 5 false).2.1).getD default

/-- After the first cumulative chunk `"He"`. -/
def ex2 : AppState := (onTokenStep ex1 exSess ("He".data) false [] 6).1

def exSess2 : StreamSession := (onTokenStep ex1 exSess ("He".data) false [] 6).2.1

/-- After the user switches the view from `A` to `B` mid-stream. -/
def ex3 : AppState := switchToChat ex2 exB

/-- After the second cumulative chunk `"Hello"` arrives post-switch. -/
def ex4 : AppState := (onTokenStep ex3 exSess2 ("Hello".data) false [] 7).1

/-- A state whose draft input is a single space (non-empty, all whitespace). -/
def exSpace : AppState := { ex0 with input := " ".data }

/-- A minimal in-range terminal-step fixture: one placeholder message at
index 0, image listing snapshot `["x.png"]`. -/
def exTerm : AppState :=
  { chatId := some exA
    messages := [{ role := roleAssistant, content := "Hi".data, images := [], timestamp := 1 }]
    historico := []
    loading := false
    imagenesPrevias := ["x.png".data]
    input := []
    activeChatId := some exA }

def exTermSess : StreamSession :=
  { currentChatId := some exA
    closureChatId := some exA
    assistantIndex := 0
    staleMessages := []
    firstTokenReceived := true }

/-- The drag fixture: three conversations in sidebar order `a, b, c`. -/
def exHist : List (Str × Conversation) :=
  [("a".data, { name := none, order := some 0, messages := [] }),
   ("b".data, { name := none, order := some 1, messages := [] }),
   ("c".data, { name := none, order := some 2, messages := [] })]

/-! ### Basic lemmas about the string operations -/

theorem removeFirst_append (p t : Str) : removeFirst (p ++ t) p = t := by
  rw [removeFirst.eq_def, if_pos (List.isPrefixOf_iff_prefix.mpr ⟨t, rfl⟩),
    List.drop_left]

theorem nextContent_of_prefix {p c : Str} (h : p <+: c) : nextContent p c = c := by
  obtain ⟨t, rfl⟩ := h
  rw [nextContent, removeFirst_append]

theorem isPrefixChain_cons_cons {a b : Str} {rest : List Str}
    (h : isPrefixChain (a :: b :: rest) = true) :
    a <+: b ∧ isPrefixChain (b :: rest) = true := by
  rw [isPrefixChain, Bool.and_eq_true] at h
  exact ⟨List.isPrefixOf_iff_prefix.mp h.1, h.2⟩

theorem isPrefixChain_nil_cons {cs : List Str}
    (h : isPrefixChain cs = true) : isPrefixChain ([] :: cs) = true := by
  cases cs with
  | nil => rfl
  | cons c rest =>
      rw [isPrefixChain, Bool.and_eq_true]
      exact ⟨List.isPrefixOf_iff_prefix.mpr (List.nil_prefix), h⟩

theorem contentAt_of_lt {msgs : List Message} {i : Nat} (h : i < msgs.length) :
    (msgs[i]?).map Message.content = some (contentAt msgs i) := by
  rw [List.getElem?_eq_getElem h, contentAt, List.getElem?_eq_getElem h]
  rfl

theorem contentUpdateAt_length (msgs : List Message) (i : Nat) (token : Str) :
    (contentUpdateAt msgs i token).length = msgs.length := by
  rw [contentUpdateAt]
  exact List.length_set ..

theorem contentAt_contentUpdateAt {msgs : List Message} {i : Nat} (token : Str)
    (h : i < msgs.length) :
    contentAt (contentUpdateAt msgs i token) i
      = nextContent (contentAt msgs i) token := by
  have hset : ∀ m : Message, ((msgs.set i m)[i]?) = some m := by
    intro m
    rw [List.getElem?_set_self', List.getElem?_eq_getElem h]
    rfl
  rw [contentUpdateAt]
  cases hm : msgs[i]? with
  | none =>
      rw [List.getElem?_eq_getElem h] at hm
      exact absurd hm (by simp)
  | some m =>
      simp only [hm, contentAt, hset]
      rfl

/-! ### Step lemmas for `onTokenStep` -/

theorem fireStep_sess (st : AppState) (sess : StreamSession) (token : Str)
    (d : Bool) :
    (fireStep st sess token d).2.1.currentChatId = sess.currentChatId
    ∧ (fireStep st sess token d).2.1.closureChatId = sess.closureChatId
    ∧ (fireStep st sess token d).2.1.assistantIndex = sess.assistantIndex
    ∧ (fireStep st sess token d).2.1.staleMessages = sess.staleMessages := by
  rw [fireStep]
  split <;> exact ⟨rfl, rfl, rfl, rfl⟩

theorem fireStep_state (st : AppState) (sess : StreamSession) (token : Str)
    (d : Bool) :
    (fireStep st sess token d).1.messages = st.messages
    ∧ (fireStep st sess token d).1.historico = st.historico
    ∧ (fireStep st sess token d).1.imagenesPrevias = st.imagenesPrevias
    ∧ (fireStep st sess token d).1.chatId = st.chatId := by
  rw [fireStep]
  split <;> exact ⟨rfl, rfl, rfl, rfl⟩

theorem onTokenStep_sess (st : AppState) (sess : StreamSession) (token : Str)
    (d : Bool) (fetched : List Str) (ts : Nat) :
    (onTokenStep st sess token d fetched ts).2.1.currentChatId = sess.currentChatId
    ∧ (onTokenStep st sess token d fetched ts).2.1.closureChatId = sess.closureChatId
    ∧ (onTokenStep st sess token d fetched ts).2.1.assistantIndex = sess.assistantIndex
    ∧ (onTokenStep st sess token d fetched ts).2.1.staleMessages = sess.staleMessages := by
  rw [onTokenStep]
  have h := fireStep_sess (applyToSessionMessages st sess
    (fun msgs => contentUpdateAt msgs sess.assistantIndex token)) sess token d
  split
  · exact h
  · exact h

theorem applyToSessionMessages_of_route {st : AppState} {sess : StreamSession}
    (f : List Message → List Message)
    (hroute : sess.closureChatId = sess.currentChatId) :
    applyToSessionMessages st sess f = { st with messages := f st.messages } := by
  rw [applyToSessionMessages, if_pos hroute]

theorem chunkStep_eq (st : AppState) (sess : StreamSession) (token : Str)
    (fetched : List Str) (ts : Nat) :
    onTokenStep st sess token false fetched ts
      = fireStep (applyToSessionMessages st sess
          (fun msgs => contentUpdateAt msgs sess.assistantIndex token)) sess token false := by
  rw [onTokenStep, if_neg (by simp)]

theorem chunkStep_messages (st : AppState) (sess : StreamSession) (token : Str)
    (fetched : List Str) (ts : Nat)
    (hroute : sess.closureChatId = sess.currentChatId) :
    (onTokenStep st sess token false fetched ts).1.messages
      = contentUpdateAt st.messages sess.assistantIndex token := by
  rw [chunkStep_eq, applyToSessionMessages_of_route _ hroute]
  exact (fireStep_state ..).1

theorem chunkStep_imagenes (st : AppState) (sess : StreamSession) (token : Str)
    (fetched : List Str) (ts : Nat) :
    (onTokenStep st sess token false fetched ts).1.imagenesPrevias
      = st.imagenesPrevias := by
  rw [chunkStep_eq]
  refine Eq.trans (fireStep_state ..).2.2.1 ?_
  rw [applyToSessionMessages]
  split
  · rfl
  · split <;> rfl

/-! ### C1: cumulative chunks are written verbatim into the placeholder -/

theorem runChunks_content (fetched : List Str) (ts : Nat) :
    ∀ (cs : List Str) (st : AppState) (sess : StreamSession),
      sess.closureChatId = sess.currentChatId →
      sess.assistantIndex < st.messages.length →
      isPrefixChain (contentAt st.messages sess.assistantIndex :: cs) = true →
      ∀ i, (hi : i < cs.length) →
        contentAt
          (runCalls fetched ts st sess (chunkCalls (cs.take (i + 1)))).1.messages
          sess.assistantIndex
          = cs.get ⟨i, hi⟩ := by
  intro cs
  induction cs with
  | nil => intro st sess _ _ _ i hi; exact absurd hi (by simp)
  | cons c rest ih =>
      intro st sess hroute hidx hchain i hi
      obtain ⟨hpre, hchain'⟩ := isPrefixChain_cons_cons hchain
      have hstep : (onTokenStep st sess c false fetched ts).1.messages
          = contentUpdateAt st.messages sess.assistantIndex c :=
        chunkStep_messages st sess c fetched ts hroute
      have hcontent : contentAt (onTokenStep st sess c false fetched ts).1.messages
          sess.assistantIndex = c := by
        rw [hstep, contentAt_contentUpdateAt c hidx, nextContent_of_prefix hpre]
      cases i with
      | zero =>
          simp only [List.take, chunkCalls, List.map, runCalls, List.get]
          exact hcontent
      | succ j =>
          have hj : j < rest.length := Nat.lt_of_succ_lt_succ hi
          have hsess := onTokenStep_sess st sess c false fetched ts
          have hlen : (onTokenStep st sess c false fetched ts).1.messages.length
              = st.messages.length := by
            rw [hstep]; exact contentUpdateAt_length ..
          have := ih (onTokenStep st sess c false fetched ts).1
            (onTokenStep st sess c false fetched ts).2.1
            (by rw [hsess.2.1, hsess.1]; exact hroute)
            (by rw [hsess.2.2.1, hlen]; exact hidx)
            (by rw [hsess.2.2.1, hcontent]; exact hchain') j hj
          simp only [List.take, chunkCalls, List.map, runCalls]
          simp only [chunkCalls] at this
          rw [hsess.2.2.1] at this
          exact this

/-- C1: for every active stream session (routing intact, placeholder in range
and initially empty) and every sequence of cumulative chunks in which each
chunk is a prefix-extension of the previous one, after the chunk handler
processes chunk `i` the placeholder assistant message's content equals that
chunk exactly. -/
theorem streamed_content_eq_cumulative_chunk (st : AppState) (sess : StreamSession)
    (cs : List Str) (fetched : List Str) (ts : Nat) (i : Nat)
    (hroute : sess.closureChatId = sess.currentChatId)
    (hidx : sess.assistantIndex < st.messages.length)
    (hempty : contentAt st.messages sess.assistantIndex = [])
    (hchain : isPrefixChain cs = true)
    (hi : i < cs.length) :
    ((runCalls fetched ts st sess (chunkCalls (cs.take (i + 1)))).1.messages[sess.assistantIndex]?).map
        Message.content = some (cs.get ⟨i, hi⟩) := by
  have hlenrun : ∀ (calls : List (Str × Bool)) (st' : AppState) (sess' : StreamSession),
      sess'.closureChatId = sess'.currentChatId →
      sess'.assistantIndex = sess.assistantIndex →
      st'.messages.length = st.messages.length →
      (runCalls fetched ts st' sess' (chunkCalls calls.unzip.1)).1.messages.length
        = st.messages.length := by
    intro calls
    induction calls with
    | nil => intro st' sess' _ _ h; exact h
    | cons c cr ihc =>
        intro st' sess' hr hsi hl
        have hsess := onTokenStep_sess st' sess' c.1 false fetched ts
        have hstep := chunkStep_messages st' sess' c.1 fetched ts hr
        simp only [List.unzip, chunkCalls, List.map, runCalls]
        exact ihc (onTokenStep st' sess' c.1 false fetched ts).1
          (onTokenStep st' sess' c.1 false fetched ts).2.1
          (by rw [hsess.2.1, hsess.1]; exact hr)
          (by rw [hsess.2.2.1]; exact hsi)
          (by rw [hstep, contentUpdateAt_length]; exact hl)
  have hcontent := runChunks_content fetched ts cs st sess hroute hidx
    (by rw [hempty]; exact isPrefixChain_nil_cons hchain) i hi
  have hlen : (runCalls fetched ts st sess (chunkCalls (cs.take (i + 1)))).1.messages.length
      = st.messages.length := by
    have := hlenrun ((cs.take (i + 1)).map (fun c => (c, false))) st sess hroute rfl rfl
    simpa [chunkCalls, List.unzip_fst] using this
  rw [contentAt_of_lt (by rw [hlen]; exact hidx), hcontent]

/-- Witness for C1 at a concrete run: chunks `"H" ⊆ "He" ⊆ "Hello"`, checked
after the third chunk. -/
theorem streamed_content_eq_cumulative_chunk_witness :
    exSess.closureChatId = exSess.currentChatId
    ∧ exSess.assistantIndex < ex1.messages.length
    ∧ contentAt ex1.messages exSess.assistantIndex = []
    ∧ isPrefixChain ["H".data, "He".data, "Hello".data] = true
    ∧ ((runCalls [] 0 ex1 exSess
        (chunkCalls (["H".data, "He".data, "Hello".data].take (2 + 1)))).1.messages[exSess.assistantIndex]?).map
          Message.content = some ("Hello".data) :=
  ⟨by decide, by decide, by decide, by decide,
    streamed_content_eq_cumulative_chunk ex1 exSess
      ["H".data, "He".data, "Hello".data] [] 0 2
      (by decide) (by decide) (by decide) (by decide) (by decide)⟩

/-! ### C10: blank input is a no-op -/

/-- C10: invoking the send operation while the input text is empty or
whitespace-only leaves the whole state unchanged and issues no outbound
request (`if (!input.trim()) return;`). -/
theorem blank_input_noop (st : AppState) (ts : Nat) (planning : Bool)
    (hblank : jsTrim st.input = []) :
    beginSend st ts planning = (st, none, []) := by
  rw [beginSend, if_pos hblank]

/-- Witness for C10 at a concrete whitespace-only input. -/
theorem blank_input_noop_witness :
    jsTrim exSpace.input = [] ∧ beginSend exSpace 7 true = (exSpace, none, []) :=
  ⟨by decide, blank_input_noop exSpace 7 true (by decide)⟩

/-! ### C6: what `begin` appends and sends -/

/-- Counterexample to C6 as stated: the input `" "` is a non-empty input
text, yet the send operation appends nothing and issues no request (the
guard tests the trimmed input, not emptiness). -/
theorem c6_counterexample_whitespace_input :
    exSpace.input ≠ []
    ∧ (beginSend exSpace 3 false).1.messages = exSpace.messages
    ∧ (beginSend exSpace 3 false).2.2 = [] := by
  refine ⟨by decide, ?_, ?_⟩ <;>
    · rw [beginSend, if_pos (by decide : jsTrim exSpace.input = [])]

/-- C6 (amended: "non-empty" must be read as "non-blank", i.e. the trimmed
input is non-empty): `begin` appends the user message followed by the empty
assistant placeholder, opens a session pinned to the conversation and the
placeholder index, and issues the outbound request whose chat history is
exactly the prior messages reduced to role/content pairs, excluding the two
newly appended messages. -/
theorem begin_appends_user_and_placeholder (st : AppState) (ts : Nat) (planning : Bool)
    (hin : jsTrim st.input ≠ []) :
    (beginSend st ts planning).1.messages
      = st.messages ++
        [{ role := roleUser, content := st.input, images := [], timestamp := ts },
         { role := roleAssistant, content := [], images := [], timestamp := ts }]
    ∧ (beginSend st ts planning).2.1
      = some { currentChatId := st.chatId, closureChatId := st.chatId
               assistantIndex := st.messages.length + 1
               staleMessages := st.messages, firstTokenReceived := false }
    ∧ (beginSend st ts planning).2.2
      = (match st.chatId with
         | some cid => [Action.addMessage cid
            { role := roleUser, content := st.input, images := [], timestamp := ts }]
         | none => []) ++
        [Action.streamRequest (if planning then planEndpoint else searchEndpoint)
          st.input (st.messages.map (fun m => (m.role, m.content)))] := by
  rw [beginSend, if_neg hin]
  exact ⟨rfl, rfl, rfl⟩

/-- Witness for the amended C6 at the concrete fixture. -/
theorem begin_appends_user_and_placeholder_witness :
    jsTrim ex0.input ≠ []
    ∧ ((beginSend ex0 5 false).1.messages
        = ex0.messages ++
          [{ role := roleUser, content := ex0.input, images := [], timestamp := 5 },
           { role := roleAssistant, content := [], images := [], timestamp := 5 }]
      ∧ (beginSend ex0 5 false).2.1
        = some { currentChatId := ex0.chatId, closureChatId := ex0.chatId
                 assistantIndex := ex0.messages.length + 1
                 staleMessages := ex0.messages, firstTokenReceived := false }
      ∧ (beginSend ex0 5 false).2.2
        = (match ex0.chatId with
           | some cid => [Action.addMessage cid
              { role := roleUser, content := ex0.input, images := [], timestamp := 5 }]
           | none => []) ++
          [Action.streamRequest (if false then planEndpoint else searchEndpoint)
            ex0.input (ex0.messages.map (fun m => (m.role, m.content)))]) :=
  ⟨by decide, begin_appends_user_and_placeholder ex0 5 false (by decide)⟩

/-! ### C3: the error path -/

/-- Counterexample to C3 as stated: after a transport error mid-stream the
placeholder assistant message still holds the last streamed chunk (here
`"He"`), not the fixed error text — the error handler appends a new message
instead of replacing the placeholder's content. -/
theorem c3_counterexample_placeholder_kept :
    ((errorStep ex2 exSess2 9).messages[exSess.assistantIndex]?).map Message.content
      = some ("He".data)
    ∧ ("He".data : Str) ≠ errText := by
  refine ⟨?_, by decide⟩
  decide

/-- C3 (amended: the error handler *appends* a fresh assistant message with
the fixed error text and no images, leaving the placeholder in place):
after any failure the routed conversation's message list ends with
`{role: assistant, content: errText, images: []}`, the loading flag is
cleared and the session is closed. -/
theorem error_appends_fixed_error_message (st : AppState) (sess : StreamSession)
    (ts : Nat) (hroute : sess.closureChatId = sess.currentChatId) :
    (errorStep st sess ts).messages
      = st.messages ++
        [{ role := roleAssistant, content := errText, images := [], timestamp := ts }]
    ∧ (errorStep st sess ts).messages.getLast?
      = some { role := roleAssistant, content := errText, images := [], timestamp := ts }
    ∧ (errorStep st sess ts).loading = false
    ∧ (errorStep st sess ts).activeChatId = none := by
  have hmsgs : (errorStep st sess ts).messages
      = st.messages ++
        [{ role := roleAssistant, content := errText, images := [], timestamp := ts }] := by
    rw [errorStep, applyToSessionMessages_of_route _ hroute]
  exact ⟨hmsgs, by rw [hmsgs]; exact List.getLast?_concat _, rfl, rfl⟩

/-- Witness for the amended C3 at the concrete mid-stream fixture. -/
theorem error_appends_fixed_error_message_witness :
    exSess2.closureChatId = exSess2.currentChatId
    ∧ ((errorStep ex2 exSess2 9).messages
        = ex2.messages ++
          [{ role := roleAssistant, content := errText, images := [], timestamp := 9 }]
      ∧ (errorStep ex2 exSess2 9).messages.getLast?
        = some { role := roleAssistant, content := errText, images := [], timestamp := 9 }
      ∧ (errorStep ex2 exSess2 9).loading = false
      ∧ (errorStep ex2 exSess2 9).activeChatId = none) :=
  ⟨by decide, error_appends_fixed_error_message ex2 exSess2 9 (by decide)⟩

/-! ### C2: chat switch mid-stream misroutes the chunks (stale closure) -/

/-- C2 fails on the code: the guard `chatId === currentChatId` compares the
render-captured `chatId` with its own copy, so it is always true and every
chunk update goes to the *displayed* message list.  Concrete run: a stream
for conversation `A` receives `"He"`, the user switches to `B`, then chunk
`"Hello"` arrives.  `A`'s stored list still holds `"He"` (never `"Hello"`),
while `B`'s displayed list was mutated at the placeholder index. -/
theorem c2_switch_midstream_misroutes_chunks :
    (histGet ex4.historico exA).map (fun c => contentAt c.messages exSess.assistantIndex)
      = some ("He".data)
    ∧ contentAt ex4.messages exSess.assistantIndex = "b1Hello".data
    ∧ ex4.chatId = some exB
    ∧ (histGet ex4.historico exB).map (fun c => contentAt c.messages exSess.assistantIndex)
      = some ("b1".data)
    ∧ ("He".data : Str) ≠ "Hello".data
    ∧ ("b1Hello".data : Str) ≠ "b1".data := by
  decide

/-! ### C8: a response without a stream body -/

/-- Counterexample to C8 as stated: a bodiless response is *not* treated as
an immediate empty stream.  An empty stream still fires the terminal event
(image fetch + persistence + session close), while the bodiless response
returns before any `onToken` call: no actions at all and the active-chat
marker is never cleared. -/
theorem c8_counterexample_nobody_differs :
    (runCalls [] 8 ex1 exSess (callBackendStreamCalls StreamResponse.noBody)).2.2 = []
    ∧ (runCalls [] 8 ex1 exSess (callBackendStreamCalls (StreamResponse.body []))).2.2
      = [Action.imagesListFetch,
         Action.addMessage exA
          { role := roleAssistant, content := [], images := [], timestamp := 8 }]
    ∧ (runCalls [] 8 ex1 exSess (callBackendStreamCalls StreamResponse.noBody)).1.activeChatId
      = some exA
    ∧ (runCalls [] 8 ex1 exSess (callBackendStreamCalls (StreamResponse.body []))).1.activeChatId
      = none := by
  decide

/-- C8 (amended): a response without a stream body makes `callBackendStream`
return before the read loop, so the send completes with no chunk events at
all — the state is untouched, no image diff or persistence happens, and no
terminal processing occurs. -/
theorem nobody_response_is_noop (st : AppState) (sess : StreamSession)
    (fetched : List Str) (ts : Nat) :
    runCalls fetched ts st sess (callBackendStreamCalls StreamResponse.noBody)
      = (st, sess, []) :=
  rfl

/-! ### C4: the terminal image diff -/

theorem fireStep_done (st : AppState) (sess : StreamSession) (token : Str) :
    fireStep st sess token true = (st, sess, []) := by
  rw [fireStep, if_neg]
  intro h
  exact absurd h.2.2 (by simp)

theorem termStep_eq (st : AppState) (sess : StreamSession) (token : Str)
    (fetched : List Str) (ts : Nat) :
    onTokenStep st sess token true fetched ts
      = ((doneStep (applyToSessionMessages st sess
            (fun msgs => contentUpdateAt msgs sess.assistantIndex token))
            sess token fetched ts).1,
         sess,
         (doneStep (applyToSessionMessages st sess
            (fun msgs => contentUpdateAt msgs sess.assistantIndex token))
            sess token fetched ts).2) := by
  rw [onTokenStep]
  rw [fireStep_done, if_pos rfl]
  rfl

theorem applyToSessionMessages_fields (st : AppState) (sess : StreamSession)
    (f : List Message → List Message) :
    (applyToSessionMessages st sess f).imagenesPrevias = st.imagenesPrevias
    ∧ (applyToSessionMessages st sess f).loading = st.loading
    ∧ (applyToSessionMessages st sess f).chatId = st.chatId
    ∧ (applyToSessionMessages st sess f).activeChatId = st.activeChatId := by
  rw [applyToSessionMessages]
  split
  · exact ⟨rfl, rfl, rfl, rfl⟩
  · split <;> exact ⟨rfl, rfl, rfl, rfl⟩

theorem doneStep_messages (st : AppState) (sess : StreamSession) (token : Str)
    (fetched : List Str) (ts : Nat)
    (hroute : sess.closureChatId = sess.currentChatId) :
    (doneStep st sess token fetched ts).1.messages
      = setImagesAt st.messages sess.assistantIndex
          (fetched.filter (fun img => ¬ st.imagenesPrevias.contains img)) := by
  show (applyToSessionMessages { st with imagenesPrevias := fetched } sess _).messages = _
  rw [applyToSessionMessages_of_route _ hroute]

theorem doneStep_imagenes (st : AppState) (sess : StreamSession) (token : Str)
    (fetched : List Str) (ts : Nat) :
    (doneStep st sess token fetched ts).1.imagenesPrevias = fetched := by
  show (applyToSessionMessages { st with imagenesPrevias := fetched } sess _).imagenesPrevias
      = fetched
  exact (applyToSessionMessages_fields ..).1

theorem setImagesAt_images {msgs : List Message} {i : Nat} (imgs : List Str)
    (h : i < msgs.length) :
    ((setImagesAt msgs i imgs)[i]?).map Message.images = some imgs := by
  rw [setImagesAt]
  cases hm : msgs[i]? with
  | none => rw [List.getElem?_eq_getElem h] at hm; exact absurd hm (by simp)
  | some m =>
      rw [List.getElem?_set_self', hm]
      rfl

/-- C4: on the terminal event of a stream session (routing intact, placeholder
in range), the images attached to the placeholder message are exactly the
freshly fetched listing minus the previously snapshotted listing, the stored
snapshot is updated to the fetched listing, membership in the attached set is
the set difference, and an unchanged listing attaches nothing. -/
theorem image_diff_on_terminal (st : AppState) (sess : StreamSession) (token : Str)
    (fetched : List Str) (ts : Nat)
    (hroute : sess.closureChatId = sess.currentChatId)
    (hidx : sess.assistantIndex < st.messages.length) :
    (((onTokenStep st sess token true fetched ts).1.messages[sess.assistantIndex]?).map
        Message.images)
      = some (fetched.filter (fun img => ¬ st.imagenesPrevias.contains img))
    ∧ (onTokenStep st sess token true fetched ts).1.imagenesPrevias = fetched
    ∧ (∀ x, x ∈ fetched.filter (fun img => ¬ st.imagenesPrevias.contains img)
        ↔ x ∈ fetched ∧ x ∉ st.imagenesPrevias)
    ∧ (fetched = st.imagenesPrevias →
        fetched.filter (fun img => ¬ st.imagenesPrevias.contains img) = []) := by
  have hst1 := @applyToSessionMessages_of_route st sess
    (fun msgs => contentUpdateAt msgs sess.assistantIndex token) hroute
  refine ⟨?_, ?_, ?_, ?_⟩
  · rw [termStep_eq, doneStep_messages _ _ _ _ _ hroute, hst1]
    exact setImagesAt_images _ (by rw [contentUpdateAt_length]; exact hidx)
  · rw [termStep_eq, doneStep_imagenes]
  · intro x
    simp [List.mem_filter]
  · intro heq
    subst heq
    simp [List.filter_eq_nil_iff]

/-- Witness for C4 at a concrete terminal event: previous listing
`[x.png]`, fetched listing `[x.png, y.png]`, attached images `[y.png]`. -/
theorem image_diff_on_terminal_witness :
    (exTermSess.closureChatId = exTermSess.currentChatId
      ∧ exTermSess.assistantIndex < exTerm.messages.length)
    ∧ (((onTokenStep exTerm exTermSess ("Hi!".data) true
          ["x.png".data, "y.png".data] 9).1.messages[exTermSess.assistantIndex]?).map
        Message.images) = some [("y.png".data)]
    ∧ (onTokenStep exTerm exTermSess ("Hi!".data) true
          ["x.png".data, "y.png".data] 9).1.imagenesPrevias
        = ["x.png".data, "y.png".data] :=
  ⟨⟨by decide, by decide⟩,
    (image_diff_on_terminal exTerm exTermSess ("Hi!".data)
      ["x.png".data, "y.png".data] 9 (by decide) (by decide)).1.trans (by decide),
    (image_diff_on_terminal exTerm exTermSess ("Hi!".data)
      ["x.png".data, "y.png".data] 9 (by decide) (by decide)).2.1⟩

/-! ### C5: the loading signal fires exactly once, on the first non-empty chunk -/

theorem countLoading_append (a b : List Action) :
    countLoading (a ++ b) = countLoading a + countLoading b :=
  List.count_append ..

theorem fireStep_of_ftr (st : AppState) (sess : StreamSession) (token : Str)
    (d : Bool) (h : sess.firstTokenReceived = true) :
    fireStep st sess token d = (st, sess, []) := by
  rw [fireStep, if_neg]
  intro hc
  rw [h] at hc
  exact absurd hc.1 (by simp)

theorem fireStep_fired (st : AppState) (sess : StreamSession) (token : Str)
    (d : Bool) (h : sess.firstTokenReceived = false ∧ token ≠ [] ∧ d = false) :
    fireStep st sess token d
      = ({ st with loading := false }, { sess with firstTokenReceived := true },
         [Action.loadingFinished]) := by
  rw [fireStep, if_pos h]

theorem fireStep_countLoading (st : AppState) (sess : StreamSession) (token : Str)
    (d : Bool) :
    countLoading (fireStep st sess token d).2.2
      = if sess.firstTokenReceived = false ∧ token ≠ [] ∧ d = false then 1 else 0 := by
  by_cases h : sess.firstTokenReceived = false ∧ token ≠ [] ∧ d = false
  · rw [fireStep_fired st sess token d h, if_pos h]
    rfl
  · rw [fireStep, if_neg h, if_neg h]
    rfl

theorem doneStep_countLoading (st : AppState) (sess : StreamSession) (token : Str)
    (fetched : List Str) (ts : Nat) :
    countLoading (doneStep st sess token fetched ts).2 = 0 := by
  rw [doneStep]
  cases sess.currentChatId <;> rfl

theorem onTokenStep_fire (st : AppState) (sess : StreamSession) (token : Str)
    (d : Bool) (fetched : List Str) (ts : Nat) :
    (onTokenStep st sess token d fetched ts).2.1
        = (fireStep (applyToSessionMessages st sess
            (fun msgs => contentUpdateAt msgs sess.assistantIndex token)) sess token d).2.1
    ∧ countLoading (onTokenStep st sess token d fetched ts).2.2
        = countLoading (fireStep (applyToSessionMessages st sess
            (fun msgs => contentUpdateAt msgs sess.assistantIndex token)) sess token d).2.2 := by
  rw [onTokenStep]
  split
  · refine ⟨rfl, ?_⟩
    show countLoading (_ ++ _) = _
    rw [countLoading_append, doneStep_countLoading, Nat.add_zero]
  · exact ⟨rfl, rfl⟩

theorem runCalls_countLoading_of_ftr (fetched : List Str) (ts : Nat) :
    ∀ (calls : List (Str × Bool)) (st : AppState) (sess : StreamSession),
      sess.firstTokenReceived = true →
      countLoading (runCalls fetched ts st sess calls).2.2 = 0 := by
  intro calls
  induction calls with
  | nil => intro st sess _; rfl
  | cons c cr ih =>
      intro st sess h
      show countLoading ((onTokenStep st sess c.1 c.2 fetched ts).2.2 ++ _) = 0
      rw [countLoading_append, (onTokenStep_fire st sess c.1 c.2 fetched ts).2,
        fireStep_countLoading, if_neg (fun hc => by rw [h] at hc; exact absurd hc.1 (by simp))]
      rw [ih _ _ ?_]
      have := (onTokenStep_fire st sess c.1 c.2 fetched ts).1
      rw [this, fireStep_of_ftr _ _ _ _ h]
      exact h

theorem runCalls_countLoading (fetched : List Str) (ts : Nat) :
    ∀ (calls : List (Str × Bool)) (st : AppState) (sess : StreamSession),
      sess.firstTokenReceived = false →
      countLoading (runCalls fetched ts st sess calls).2.2
        = if ∃ c ∈ calls, c.1 ≠ [] ∧ c.2 = false then 1 else 0 := by
  intro calls
  induction calls with
  | nil =>
      intro st sess _
      rw [if_neg (by simp)]
      rfl
  | cons c cr ih =>
      intro st sess hfr
      show countLoading ((onTokenStep st sess c.1 c.2 fetched ts).2.2 ++ _) = _
      rw [countLoading_append, (onTokenStep_fire st sess c.1 c.2 fetched ts).2,
        fireStep_countLoading]
      by_cases hc : c.1 ≠ [] ∧ c.2 = false
      · rw [if_pos ⟨hfr, hc.1, hc.2⟩]
        have hrec : countLoading (runCalls fetched ts
            (onTokenStep st sess c.1 c.2 fetched ts).1
            (onTokenStep st sess c.1 c.2 fetched ts).2.1 cr).2.2 = 0 := by
          refine runCalls_countLoading_of_ftr fetched ts cr _ _ ?_
          rw [(onTokenStep_fire st sess c.1 c.2 fetched ts).1,
            fireStep_fired _ sess c.1 c.2 ⟨hfr, hc.1, hc.2⟩]
        rw [hrec, if_pos ⟨c, List.mem_cons_self c cr, hc⟩]
      · rw [if_neg (fun h => hc ⟨h.2.1, h.2.2⟩), Nat.zero_add]
        have hsess : (onTokenStep st sess c.1 c.2 fetched ts).2.1 = sess := by
          rw [(onTokenStep_fire st sess c.1 c.2 fetched ts).1, fireStep,
            if_neg (fun h => hc ⟨h.2.1, h.2.2⟩)]
        rw [hsess, ih _ _ hfr]
        by_cases hrest : ∃ x ∈ cr, x.1 ≠ [] ∧ x.2 = false
        · obtain ⟨x, hx, hpx⟩ := hrest
          rw [if_pos ⟨x, hx, hpx⟩, if_pos ⟨x, List.mem_cons_of_mem c hx, hpx⟩]
        · rw [if_neg hrest, if_neg ?_]
          rintro ⟨x, hx, hpx⟩
          rcases List.mem_cons.mp hx with rfl | hx'
          · exact hc hpx
          · exact hrest ⟨x, hx', hpx⟩

theorem streamBuffers_mem_flatten (b : Str) (reads : List Str)
    (h : reads.flatten ≠ []) : (b ++ reads.flatten) ∈ streamBuffers b reads := by
  induction reads generalizing b with
  | nil => exact absurd rfl h
  | cons r rs ih =>
      rw [streamBuffers]
      by_cases hrs : rs.flatten = []
      · rw [List.flatten_cons, hrs, List.append_nil]
        exact List.mem_cons_self ..
      · rw [List.flatten_cons, ← List.append_assoc]
        exact List.mem_cons_of_mem _ (ih (b ++ r) hrs)

theorem take_append_singleton {α : Type} (l : List α) (t : α) (k : Nat) :
    (l ++ [t]).take k = l.take k ∨ (l ++ [t]).take k = l ++ [t] := by
  by_cases hk : k ≤ l.length
  · exact Or.inl (List.take_append_of_le_length hk)
  · refine Or.inr (List.take_of_length_le ?_)
    have h1 : l.length + 1 ≤ k := Nat.succ_le_of_lt (Nat.lt_of_not_le hk)
    simpa using h1

theorem streamCalls_take_exists (reads : List Str) (k : Nat) :
    (∃ c ∈ (streamCalls reads).take k, c.1 ≠ [] ∧ c.2 = false)
      ↔ (∃ c ∈ (streamCalls reads).take k, c.1 ≠ []) := by
  constructor
  · rintro ⟨c, hm, h1, _⟩
    exact ⟨c, hm, h1⟩
  · rintro ⟨c, hm, h1⟩
    rcases take_append_singleton ((streamBuffers [] reads).map (fun b => (b, false)))
        (reads.flatten, true) k with htk | htk
    · rw [streamCalls, htk] at hm
      obtain ⟨b, _, rfl⟩ := List.mem_map.mp (List.mem_of_mem_take hm)
      exact ⟨(b, false), by rw [streamCalls, htk]; exact hm, h1, rfl⟩
    · rw [streamCalls, htk] at hm
      rcases List.mem_append.mp hm with hm1 | hm2
      · obtain ⟨b, _, rfl⟩ := List.mem_map.mp hm1
        exact ⟨(b, false), by rw [streamCalls, htk]; exact List.mem_append.mpr (Or.inl hm1),
          h1, rfl⟩
      · have hc : c = (reads.flatten, true) := List.mem_singleton.mp hm2
        have hfl : reads.flatten ≠ [] := by rw [hc] at h1; exact h1
        have hbuf := streamBuffers_mem_flatten [] reads hfl
        rw [List.nil_append] at hbuf
        refine ⟨(reads.flatten, false), ?_, hfl, rfl⟩
        rw [streamCalls, htk]
        exact List.mem_append.mpr
          (Or.inl (List.mem_map.mpr ⟨reads.flatten, hbuf, rfl⟩))

/-- C5: over any prefix of the `onToken` calls produced by
`callBackendStream`, the "loading finished" signal has fired exactly once if
the prefix contains a non-empty chunk and never otherwise — i.e. it fires on
the first non-empty chunk and later non-empty chunks have no further effect
on the loading state. -/
theorem loading_finished_exactly_once (st : AppState) (sess : StreamSession)
    (fetched : List Str) (ts : Nat) (reads : List Str) (k : Nat)
    (hfr : sess.firstTokenReceived = false) :
    countLoading (runCalls fetched ts st sess ((streamCalls reads).take k)).2.2
      = if ∃ c ∈ (streamCalls reads).take k, c.1 ≠ [] then 1 else 0 := by
  rw [runCalls_countLoading fetched ts _ st sess hfr]
  by_cases h : ∃ c ∈ (streamCalls reads).take k, c.1 ≠ [] ∧ c.2 = false
  · rw [if_pos h, if_pos ((streamCalls_take_exists reads k).mp h)]
  · rw [if_neg h, if_neg (fun h2 => h ((streamCalls_take_exists reads k).mpr h2))]

/-- Witness for C5: a stream whose first read decodes to the empty string and
whose second read carries text fires the signal exactly once across the full
call sequence. -/
theorem loading_finished_exactly_once_witness :
    exSess.firstTokenReceived = false
    ∧ countLoading (runCalls [] 0 ex1 exSess
        ((streamCalls [[], "He".data]).take 3)).2.2 = 1 :=
  ⟨by decide,
    (loading_finished_exactly_once ex1 exSess [] 0 [[], "He".data] 3 (by decide)).trans
      (by decide)⟩

/-! ### C7: the terminal event persists exactly one assistant message -/

theorem persistedMessages_append (a b : List Action) :
    persistedMessages (a ++ b) = persistedMessages a ++ persistedMessages b :=
  List.filterMap_append ..

theorem contentAt_of_ge {msgs : List Message} {i : Nat} (h : msgs.length ≤ i) :
    contentAt msgs i = [] := by
  rw [contentAt, List.getElem?_eq_none h]
  rfl

theorem chunkStep_persisted (st : AppState) (sess : StreamSession) (token : Str)
    (fetched : List Str) (ts : Nat) :
    persistedMessages (onTokenStep st sess token false fetched ts).2.2 = [] := by
  rw [chunkStep_eq, fireStep]
  split <;> rfl

theorem doneStep_acts (st : AppState) (sess : StreamSession) (token : Str)
    (fetched : List Str) (ts : Nat) (cid : Str)
    (hcid : sess.currentChatId = some cid) :
    (doneStep st sess token fetched ts).2
      = [Action.imagesListFetch,
         Action.addMessage cid
          { role := roleAssistant
            content := contentAt sess.staleMessages sess.assistantIndex ++ token
            images := fetched.filter (fun img => ¬ st.imagenesPrevias.contains img)
            timestamp := ts }] := by
  rw [doneStep, hcid]

/-- Over the non-terminal calls of a stream, nothing is persisted and the
image snapshot and the captured session fields are all preserved. -/
theorem runChunkCalls_inv (fetched : List Str) (ts : Nat) :
    ∀ (bs : List Str) (st : AppState) (sess : StreamSession),
      persistedMessages
          (runCalls fetched ts st sess (bs.map (fun b => (b, false)))).2.2 = []
      ∧ (runCalls fetched ts st sess (bs.map (fun b => (b, false)))).1.imagenesPrevias
          = st.imagenesPrevias
      ∧ (runCalls fetched ts st sess (bs.map (fun b => (b, false)))).2.1.currentChatId
          = sess.currentChatId
      ∧ (runCalls fetched ts st sess (bs.map (fun b => (b, false)))).2.1.staleMessages
          = sess.staleMessages
      ∧ (runCalls fetched ts st sess (bs.map (fun b => (b, false)))).2.1.assistantIndex
          = sess.assistantIndex := by
  intro bs
  induction bs with
  | nil => intro st sess; exact ⟨rfl, rfl, rfl, rfl, rfl⟩
  | cons b br ih =>
      intro st sess
      have hsess := onTokenStep_sess st sess b false fetched ts
      have hprev := chunkStep_imagenes st sess b fetched ts
      have hih := ih (onTokenStep st sess b false fetched ts).1
        (onTokenStep st sess b false fetched ts).2.1
      refine ⟨?_, ?_, ?_, ?_, ?_⟩
      · show persistedMessages ((onTokenStep st sess b false fetched ts).2.2 ++ _) = []
        rw [persistedMessages_append, chunkStep_persisted, List.nil_append]
        exact hih.1
      · show (runCalls fetched ts (onTokenStep st sess b false fetched ts).1
            (onTokenStep st sess b false fetched ts).2.1
            (br.map (fun x => (x, false)))).1.imagenesPrevias = st.imagenesPrevias
        rw [hih.2.1, hprev]
      · show (runCalls fetched ts (onTokenStep st sess b false fetched ts).1
            (onTokenStep st sess b false fetched ts).2.1
            (br.map (fun x => (x, false)))).2.1.currentChatId = sess.currentChatId
        rw [hih.2.2.1, hsess.1]
      · show (runCalls fetched ts (onTokenStep st sess b false fetched ts).1
            (onTokenStep st sess b false fetched ts).2.1
            (br.map (fun x => (x, false)))).2.1.staleMessages = sess.staleMessages
        rw [hih.2.2.2.1, hsess.2.2.2]
      · show (runCalls fetched ts (onTokenStep st sess b false fetched ts).1
            (onTokenStep st sess b false fetched ts).2.1
            (br.map (fun x => (x, false)))).2.1.assistantIndex = sess.assistantIndex
        rw [hih.2.2.2.2, hsess.2.2.1]

theorem runCalls_acts_append (fetched : List Str) (ts : Nat) :
    ∀ (l1 l2 : List (Str × Bool)) (st : AppState) (sess : StreamSession),
      (runCalls fetched ts st sess (l1 ++ l2)).2.2
        = (runCalls fetched ts st sess l1).2.2
          ++ (runCalls fetched ts (runCalls fetched ts st sess l1).1
                (runCalls fetched ts st sess l1).2.1 l2).2.2 := by
  intro l1
  induction l1 with
  | nil => intro l2 st sess; rfl
  | cons c cr ih =>
      intro l2 st sess
      rw [List.cons_append]
      show ((onTokenStep st sess c.1 c.2 fetched ts).2.2
          ++ (runCalls fetched ts (onTokenStep st sess c.1 c.2 fetched ts).1
                (onTokenStep st sess c.1 c.2 fetched ts).2.1 (cr ++ l2)).2.2)
        = _
      rw [ih, ← List.append_assoc]
      rfl

/-- C7: running the full call sequence of a stream whose session is pinned to
conversation `cid` (with the placeholder index past the captured stale
message list, as `begin` always arranges) persists exactly one message: an
assistant message under `cid` whose content is the final cumulative text,
whose images are the freshly computed new-image set, and which carries a
timestamp. -/
theorem terminal_persists_final_assistant_message (st : AppState)
    (sess : StreamSession) (reads : List Str) (fetched : List Str) (ts : Nat)
    (cid : Str)
    (hcid : sess.currentChatId = some cid)
    (hstale : sess.staleMessages.length < sess.assistantIndex) :
    persistedMessages (runCalls fetched ts st sess (streamCalls reads)).2.2
      = [(cid,
          { role := roleAssistant
            content := reads.flatten
            images := fetched.filter (fun img => ¬ st.imagenesPrevias.contains img)
            timestamp := ts })] := by
  rw [streamCalls, runCalls_acts_append, persistedMessages_append]
  have hinv := runChunkCalls_inv fetched ts (streamBuffers [] reads) st sess
  rw [hinv.1, List.nil_append]
  have hone : (runCalls fetched ts
      (runCalls fetched ts st sess
        ((streamBuffers [] reads).map (fun b => (b, false)))).1
      (runCalls fetched ts st sess
        ((streamBuffers [] reads).map (fun b => (b, false)))).2.1
      [(reads.flatten, true)]).2.2
      = (onTokenStep
          (runCalls fetched ts st sess
            ((streamBuffers [] reads).map (fun b => (b, false)))).1
          (runCalls fetched ts st sess
            ((streamBuffers [] reads).map (fun b => (b, false)))).2.1
          reads.flatten true fetched ts).2.2 ++ [] := rfl
  rw [hone, List.append_nil, termStep_eq]
  show persistedMessages (doneStep _ _ _ _ _).2 = _
  rw [doneStep_acts _ _ _ _ _ cid (by rw [hinv.2.2.1]; exact hcid)]
  rw [hinv.2.2.2.1]
  rw [contentAt_of_ge (by rw [hinv.2.2.2.2]; exact Nat.le_of_lt hstale)]
  show [(cid, _)] = _
  rw [(applyToSessionMessages_fields ..).1, hinv.2.1]
  rfl

/-- Witness for C7 at a concrete stream: reads `"He"`, `"llo"`, new image
`y.png`; exactly the final assistant message `"Hello"` is persisted under
conversation `A`. -/
theorem terminal_persists_final_assistant_message_witness :
    (exSess.currentChatId = some exA
      ∧ exSess.staleMessages.length < exSess.assistantIndex)
    ∧ persistedMessages (runCalls ["y.png".data] 8 ex1 exSess
        (streamCalls ["He".data, "llo".data])).2.2
      = [(exA,
          { role := roleAssistant, content := "Hello".data
            images := [("y.png".data)], timestamp := 8 })] :=
  ⟨⟨by decide, by decide⟩,
    (terminal_persists_final_assistant_message ex1 exSess ["He".data, "llo".data]
      ["y.png".data] 8 exA (by decide) (by decide)).trans (by decide)⟩

/-! ### C9: drag-and-drop reordering leaves dense unique orders -/

theorem keyIndex_cons (k a : Str) (l : List Str) :
    keyIndex k (a :: l) = if a = k then 0 else keyIndex k l + 1 := rfl

theorem applyOrd_nil (i : Nat) (e : Str × Conversation) : applyOrd [] i e = e := by
  rw [applyOrd, if_neg (by simp)]

theorem applyOrd_step (c : Str × Conversation) (rest : List (Str × Conversation))
    (hnd : ((c :: rest).map Prod.fst).Nodup) (i : Nat) (e : Str × Conversation) :
    applyOrd (c :: rest) i e
      = applyOrd rest (i + 1)
          (if e.1 = c.1 then (e.1, { e.2 with order := some i }) else e) := by
  rw [List.map_cons] at hnd
  obtain ⟨hcnot, _⟩ := List.nodup_cons.mp hnd
  by_cases he : e.1 = c.1
  · rw [if_pos he, applyOrd, applyOrd]
    rw [if_pos (by rw [List.map_cons, he]; exact List.mem_cons_self _ _),
      if_neg (fun hm => hcnot (he ▸ hm))]
    rw [List.map_cons, keyIndex_cons, if_pos he.symm]
    rfl
  · rw [if_neg he, applyOrd, applyOrd, List.map_cons]
    by_cases hm : e.1 ∈ rest.map Prod.fst
    · rw [if_pos (List.mem_cons_of_mem _ hm), if_pos hm,
        keyIndex_cons, if_neg (fun hx => he hx.symm)]
      rw [Nat.add_succ, Nat.succ_add]
    · rw [if_neg ?_, if_neg hm]
      intro hx
      rcases List.mem_cons.mp hx with hx1 | hx2
      · exact he hx1
      · exact hm hx2

theorem assignOrders_eq (arr : List (Str × Conversation)) :
    (arr.map Prod.fst).Nodup → ∀ (i : Nat) (h : List (Str × Conversation)),
      assignOrders arr i h = h.map (applyOrd arr i) := by
  induction arr with
  | nil =>
      intro _ i h
      rw [assignOrders]
      have h1 : ∀ e ∈ h, applyOrd [] i e = id e := fun e _ => applyOrd_nil i e
      rw [List.map_congr_left h1, List.map_id]
  | cons c rest ih =>
      intro hnd i h
      have hndr : (rest.map Prod.fst).Nodup := by
        rw [List.map_cons] at hnd
        exact (List.nodup_cons.mp hnd).2
      rw [assignOrders, ih hndr (i + 1) _, histSetOrder, List.map_map]
      refine List.map_congr_left ?_
      intro e _
      exact (applyOrd_step c rest hnd i e).symm

theorem keyIndex_map_self (l : List Str) (hnd : l.Nodup) :
    l.map (fun k => keyIndex k l) = List.range l.length := by
  induction l with
  | nil => rfl
  | cons a l ih =>
      obtain ⟨ha, hl⟩ := List.nodup_cons.mp hnd
      rw [List.map_cons, keyIndex_cons, if_pos rfl, List.length_cons,
        List.range_succ_eq_map]
      have h1 : ∀ k ∈ l, keyIndex k (a :: l) = Nat.succ (keyIndex k l) := by
        intro k hk
        rw [keyIndex_cons, if_neg (fun he => ha (by rw [he]; exact hk))]
      rw [List.map_congr_left h1, ← ih hl, List.map_map]
      rfl

theorem spliceRemove_perm (l : List (Str × Conversation)) (i : Nat)
    (h : i < l.length) :
    l.Perm ((l.get ⟨i, h⟩) :: spliceRemove l i) := by
  conv_lhs => rw [← List.take_append_drop i l, ← List.getElem_cons_drop l i h]
  exact List.perm_middle

theorem spliceInsert_perm (l : List (Str × Conversation)) (i : Nat)
    (a : Str × Conversation) :
    (spliceInsert l i a).Perm (a :: l) := by
  rw [spliceInsert]
  refine List.perm_middle.trans ?_
  rw [List.take_append_drop]

/-- Orders after the reassignment loop over any permutation of the entries:
exactly `{some 0, ..., some (n-1)}` as a multiset. -/
theorem orders_perm_of_perm (arr2 h : List (Str × Conversation))
    (hperm : arr2.Perm h) (hnd : (h.map Prod.fst).Nodup) :
    ((assignOrders arr2 0 h).map (fun e => e.2.order)).Perm
      ((List.range h.length).map some) := by
  have hkeys2 : (arr2.map Prod.fst).Perm (h.map Prod.fst) := hperm.map _
  have hnd2 : (arr2.map Prod.fst).Nodup := hkeys2.symm.nodup hnd
  rw [assignOrders_eq _ hnd2 0 h, List.map_map]
  have hpt : ∀ e ∈ h,
      ((fun e => e.2.order) ∘ applyOrd arr2 0) e
        = ((fun k => some (keyIndex k (arr2.map Prod.fst))) ∘ Prod.fst) e := by
    intro e he
    have hmem : e.1 ∈ arr2.map Prod.fst :=
      hkeys2.symm.mem_iff.mp (List.mem_map_of_mem Prod.fst he)
    show (applyOrd arr2 0 e).2.order = some (keyIndex e.1 (arr2.map Prod.fst))
    rw [applyOrd, if_pos hmem]
    show some (0 + _) = some _
    rw [Nat.zero_add]
  rw [List.map_congr_left hpt, ← List.map_map]
  refine (hkeys2.symm.map _).trans ?_
  have hsome : (arr2.map Prod.fst).map
        (fun k => some (keyIndex k (arr2.map Prod.fst)))
      = ((arr2.map Prod.fst).map (fun k => keyIndex k (arr2.map Prod.fst))).map
          some := by
    simp only [List.map_map]
    rfl
  rw [hsome, keyIndex_map_self _ hnd2]
  have hlen2 : (arr2.map Prod.fst).length = h.length := by
    rw [List.length_map]
    exact hperm.length_eq
  rw [hlen2]

/-- C9: after any in-range drag-and-drop reorder over a conversation map with
distinct ids, the assigned order values are pairwise distinct and dense: as a
multiset they are exactly `{some 0, ..., some (n-1)}`. -/
theorem reorder_orders_dense (h : List (Str × Conversation)) (res : DragResult)
    (dest : Nat)
    (hnd : (h.map Prod.fst).Nodup)
    (hdest : res.destination = some dest)
    (hsrc : res.source < h.length) :
    ((onDragEnd h res).1.map (fun e => e.2.order)).Perm
      ((List.range h.length).map some) := by
  have harr : (chatArrayOf h).Perm h := List.perm_insertionSort _ h
  have hsrc2 : res.source < (chatArrayOf h).length := by
    rw [harr.length_eq]
    exact hsrc
  simp only [onDragEnd, hdest, List.getElem?_eq_getElem hsrc2]
  exact orders_perm_of_perm _ h
    (((spliceInsert_perm _ _ _).trans
      ((spliceRemove_perm (chatArrayOf h) res.source hsrc2).symm)).trans harr) hnd

/-- Witness for C9: moving the first of three conversations to the end yields
order values `{some 0, some 1, some 2}`. -/
theorem reorder_orders_dense_witness :
    ((exHist.map Prod.fst).Nodup ∧ (0 : Nat) < exHist.length)
    ∧ ((onDragEnd exHist { source := 0, destination := some 2 }).1.map
        (fun e => e.2.order)).Perm ((List.range exHist.length).map some) :=
  ⟨⟨by decide, by decide⟩,
    reorder_orders_dense exHist { source := 0, destination := some 2 } 2
      (by decide) rfl (by decide)⟩

end BravePG
